import Mathlib

/-!
Verification of the traffic-shaping core of the `palm-tree` repository.

This file gives a shallow embedding of the components named by the
specification — the token-bucket rate limiter, the request deduplicator
and the retry/backoff fetch loop (`src/optimized_client.py`), the
Markov-chain behavior model and the activity-window schedule
(`src/modes/sleepy.py`), and the sliding-window bandwidth monitor
(`src/throttle.py`) — and proves or refutes the frozen claims about them.

Conventions of the embedding:
* Python floats are modelled as exact rationals (`ℚ`); wall-clock readings
  (`time.monotonic()` / `time.time()` / `datetime.now()`) are passed in as
  explicit arguments, so a stateful method becomes a pure function from the
  old state (plus the clock reading) to the new state and the return value.
* Python dicts are modelled as association lists with unique keys;
  `random.uniform(a, b)` draws are modelled by an explicit parameter,
  either the drawn factor itself (with its range as a hypothesis) or a
  unit draw `r ∈ [0,1]` mapped affinely onto the interval `[a, b]`.
-/

/-! ## Token bucket (`src/optimized_client.py`, class `TokenBucket`) -/

/-- State of `TokenBucket`: `rate` (tokens per second), `capacity`,
the current `tokens` count and `last_update` (monotonic-clock reading).
In the source `capacity` is an `int`; it is embedded into `ℚ` here. -/
structure TokenBucket where
  rate : ℚ
  capacity : ℚ
  tokens : ℚ
  last_update : ℚ
  deriving DecidableEq, Repr

/-- `TokenBucket.__init__(rate, capacity)`: starts full (`tokens = capacity`)
with `last_update` set to the construction-time clock reading `t0`. -/
def freshTokenBucket (rate capacity t0 : ℚ) : TokenBucket :=
  ⟨rate, capacity, capacity, t0⟩

/-- `TokenBucket.acquire(tokens=n)` observed at clock reading `now`.
Refills `tokens` to `min(capacity, tokens + elapsed * rate)` and sets
`last_update := now`; then either grants (decrement by `n`, wait `0`) or
refuses (state keeps the refilled value, wait `(n - tokens) / rate`).
Returns `(new state, wait time, granted amount)`; the third component is
instrumentation for conservation accounting — it is `n` exactly on the
branch that returns wait `0` and decrements, and `0` otherwise. -/
def TokenBucket.acquire (b : TokenBucket) (n : ℚ) (now : ℚ) : TokenBucket × ℚ × ℚ :=
  let elapsed := now - b.last_update
  let refilled := min b.capacity (b.tokens + elapsed * b.rate)
  if n ≤ refilled then
    ({ b with tokens := refilled - n, last_update := now }, 0, n)
  else
    ({ b with tokens := refilled, last_update := now }, (n - refilled) / b.rate, 0)

/-- `TokenBucket.wait_and_acquire(tokens=n)`: calls `acquire` once at clock
reading `t1`; if the returned wait time is positive it sleeps and calls
`acquire` once more (at clock reading `t2 ≥ t1`), discarding that second
call's returned wait time.  Returns the final state and the total amount
actually granted across the (at most two) `acquire` calls. -/
def TokenBucket.wait_and_acquire (b : TokenBucket) (n : ℚ) (t1 t2 : ℚ) :
    TokenBucket × ℚ :=
  let r1 := b.acquire n t1
  if 0 < r1.2.1 then
    let r2 := r1.1.acquire n t2
    (r2.1, r1.2.2 + r2.2.2)
  else
    (r1.1, r1.2.2)

/-- Runs a sequence of `acquire` calls; each list element is a pair
`(n, t)` of the requested amount and the monotonic-clock reading at the
call.  Returns the final bucket state and the total granted amount. -/
def runAcquires : TokenBucket → List (ℚ × ℚ) → TokenBucket × ℚ
  | b, [] => (b, 0)
  | b, c :: rest =>
    let r := b.acquire c.1 c.2
    let s := runAcquires r.1 rest
    (s.1, r.2.2 + s.2)

/-! ## Retry / backoff fetch loop (`src/optimized_client.py`, `OptimizedClient.fetch`) -/

/-- Retry-relevant fields of `ClientConfig` (defaults `3`, `1.0`, `30.0`).
The remaining fields of the source dataclass configure connection pooling,
timeouts, throttling and deduplication and are not read by the retry loop. -/
structure ClientConfig where
  max_retries : ℕ
  retry_backoff_base : ℚ
  retry_backoff_max : ℚ
  deriving DecidableEq, Repr

/-- The unjittered exponential backoff of `fetch`:
`min(retry_backoff_base * 2 ** attempt, retry_backoff_max)`. -/
def backoffDelay (cfg : ClientConfig) (attempt : ℕ) : ℚ :=
  min (cfg.retry_backoff_base * 2 ^ attempt) cfg.retry_backoff_max

/-- The retry loop of `OptimizedClient.fetch`, embedded with an injected
transport (`transport attempt` is the outcome of the `attempt`-th call of
`self._client.request`: `some response` or `none` for a raised exception)
and an injected jitter stream (`jitter attempt` is the `random.uniform(0.5,
1.5)` draw of that attempt).  `remaining` counts loop iterations left, so
the source condition `attempt < max_retries` is `remaining ≠ 0` after one
iteration is consumed.  Returns `(result, delays slept, number of transport
invocations)`. -/
def fetchGo {R : Type} (cfg : ClientConfig) (transport : ℕ → Option R)
    (jitter : ℕ → ℚ) : ℕ → ℕ → Option R × List ℚ × ℕ
  | _, 0 => (none, [], 0)
  | attempt, remaining + 1 =>
    match transport attempt with
    | some resp => (some resp, [], 1)
    | none =>
      if remaining = 0 then
        (none, [], 1)
      else
        let d := backoffDelay cfg attempt * jitter attempt
        let s := fetchGo cfg transport jitter (attempt + 1) remaining
        (s.1, d :: s.2.1, s.2.2 + 1)

/-- `OptimizedClient.fetch`'s retry phase: `for attempt in
range(max_retries + 1)`, returning `None` after exhaustion. -/
def fetchWithRetries {R : Type} (cfg : ClientConfig) (transport : ℕ → Option R)
    (jitter : ℕ → ℚ) : Option R × List ℚ × ℕ :=
  fetchGo cfg transport jitter 0 (cfg.max_retries + 1)

/-- Concrete configuration used to exhibit that jittered backoff delays can
decrease: `max_retries = 2`, `retry_backoff_base = 1`, `retry_backoff_max = 30`. -/
def cfgEx : ClientConfig := ⟨2, 1, 30⟩

/-- A jitter stream inside the `uniform(0.5, 1.5)` support: first draw
`1.5`, later draws `0.5`. -/
def jEx : ℕ → ℚ := fun i => if i = 0 then 3 / 2 else 1 / 2

/-! ## Request deduplicator (`src/optimized_client.py`, class `RequestDeduplicator`) -/

/-- State of `RequestDeduplicator`: the dedupe window (seconds) and the
`recent_requests` dict (fingerprint → last-seen timestamp), modelled as an
association list with unique keys. -/
structure RequestDeduplicator where
  window : ℚ
  recent_requests : List (String × ℚ)
  deriving DecidableEq, Repr

/-- `RequestDeduplicator._hash_request`: the fingerprint of a request.
The source hashes the string `f"{method}:{url}"` with MD5; since MD5 is a
function, two requests have the same fingerprint whenever they have the
same `(url, method)` pair, which is all the claims depend on, so the
pre-hash string itself stands in for its digest. -/
def hashRequest (url method : String) : String :=
  method ++ ":" ++ url

/-- `RequestDeduplicator.should_skip(url, method)` at wall-clock reading
`now`: rebuilds `recent_requests` keeping only entries with `now - v <
window`, then returns `true` without updating if the fingerprint is
present, else records it at `now` and returns `false`.  Returns the
decision and the new state. -/
def RequestDeduplicator.should_skip (d : RequestDeduplicator)
    (url method : String) (now : ℚ) : Bool × RequestDeduplicator :=
  let pruned := d.recent_requests.filter (fun kv => decide (now - kv.2 < d.window))
  let h := hashRequest url method
  match pruned.lookup h with
  | some _ => (true, { d with recent_requests := pruned })
  | none => (false, { d with recent_requests := (h, now) :: pruned })

/-! ## Behavior model (`src/modes/sleepy.py`, class `BehaviorModel`) -/

/-- One entry of the browsing history handed to `train_from_history`:
`{category: str, timestamp: datetime}` (the `url` field is never read).
Timestamps are embedded as seconds (`ℚ`); ordering matches `datetime`
ordering. -/
structure Observation where
  category : String
  timestamp : ℚ
  deriving DecidableEq, Repr

/-- `datetime.hour` of a timestamp expressed in seconds. -/
def hourOf (t : ℚ) : ℕ :=
  (Int.toNat ⌊t / 3600⌋) % 24

/-- The `transitions` dict: category → (next category → weight), modelled
as nested association lists with unique keys. -/
abbrev TransitionTable := List (String × List (String × ℚ))

/-- `self.transitions[a][b] += 1` on one row of the table; a missing inner
key materializes at `0` (`defaultdict(float)`) and is then incremented. -/
def rowIncr : List (String × ℚ) → String → List (String × ℚ)
  | [], b => [(b, 1)]
  | (k, v) :: rest, b =>
    if k = b then (k, v + 1) :: rest else (k, v) :: rowIncr rest b

/-- `self.transitions[a][b] += 1`: a missing outer key materializes as an
empty row (`defaultdict(lambda: defaultdict(float))`). -/
def tableIncr : TransitionTable → String → String → TransitionTable
  | [], a, b => [(a, rowIncr [] b)]
  | (k, row) :: rest, a, b =>
    if k = a then (k, rowIncr row b) :: rest else (k, row) :: tableIncr rest a b

/-- One iteration of `BehaviorModel._normalize_transitions` on a single
row: if the row's total is positive, divide every entry by it. -/
def normalizeRow (row : List (String × ℚ)) : List (String × ℚ) :=
  let total := (row.map Prod.snd).sum
  if 0 < total then row.map (fun kv => (kv.1, kv.2 / total)) else row

/-- `BehaviorModel._normalize_transitions`: renormalizes every row of the
table. -/
def normalizeTransitions (t : TransitionTable) : TransitionTable :=
  t.map (fun r => (r.1, normalizeRow r.2))

/-- The mutable learning state of `BehaviorModel`: the transition table
and the per-hour delay samples (`delay_patterns`).  `session_lengths`,
`current_category`, `history`, `categories` and the persistence path are
not read by the trained-state claims and are omitted. -/
structure BehaviorModel where
  transitions : TransitionTable
  delay_patterns : List (ℕ × List ℚ)
  deriving DecidableEq, Repr

/-- Appends a delay sample to `self.delay_patterns[hour]`
(`defaultdict(list)`). -/
def appendDelay : List (ℕ × List ℚ) → ℕ → ℚ → List (ℕ × List ℚ)
  | [], h, d => [(h, [d])]
  | (k, ds) :: rest, h, d =>
    if k = h then (k, ds ++ [d]) :: rest else (k, ds) :: appendDelay rest h d

/-- The body of `train_from_history`'s loop, carrying the previous entry.
For each consecutive pair it increments `transitions[prev][cur]` (skipped
when `prev_category` is falsy, i.e. the empty string) and, when the gap is
in `(0, 3600)`, appends it to `delay_patterns[cur.timestamp.hour]`. -/
def trainPairs : BehaviorModel → Observation → List Observation → BehaviorModel
  | m, _, [] => m
  | m, prev, o :: rest =>
    let m1 :=
      if prev.category = "" then m
      else { m with transitions := tableIncr m.transitions prev.category o.category }
    let delay := o.timestamp - prev.timestamp
    let m2 :=
      if 0 < delay ∧ delay < 3600 then
        { m1 with delay_patterns := appendDelay m1.delay_patterns (hourOf o.timestamp) delay }
      else m1
    trainPairs m2 o rest

/-- Insertion step of the timestamp sort (`sorted(browsing_history,
key=lambda x: x.get('timestamp', ...))`). -/
def insertByTime (x : Observation) : List Observation → List Observation
  | [] => [x]
  | y :: ys =>
    if x.timestamp ≤ y.timestamp then x :: y :: ys else y :: insertByTime x ys

/-- Sorts the history by timestamp. -/
def sortByTime : List Observation → List Observation
  | [] => []
  | x :: xs => insertByTime x (sortByTime xs)

/-- `BehaviorModel.train_from_history`: returns unchanged on fewer than two
observations; otherwise sorts by timestamp, ingests consecutive pairs, and
renormalizes every transition row.  The final `_save_model()` call only
persists the state and is outside the embedding. -/
def train_from_history (m : BehaviorModel) (history : List Observation) :
    BehaviorModel :=
  if history.length < 2 then m
  else
    match sortByTime history with
    | [] => m
    | first :: rest =>
      let m1 := trainPairs m first rest
      { m1 with transitions := normalizeTransitions m1.transitions }

/-- Insertion step of `sorted(delays)`. -/
def insertQ (x : ℚ) : List ℚ → List ℚ
  | [] => [x]
  | y :: ys => if x ≤ y then x :: y :: ys else y :: insertQ x ys

/-- `sorted` on a list of delays. -/
def sortQ : List ℚ → List ℚ
  | [] => []
  | x :: xs => insertQ x (sortQ xs)

/-- The static default delay ranges of `predict_delay`, keyed by coarse
time-of-day bucket; the `random.uniform(lo, hi)` draw is `lo + r*(hi-lo)`
with unit draw `r ∈ [0,1]`. -/
def defaultDelay (hour : ℕ) (r : ℚ) : ℚ :=
  if hour < 6 then 300 + r * 1500
  else if hour < 9 then 30 + r * 150
  else if hour < 17 then 60 + r * 240
  else if hour < 23 then 15 + r * 105
  else 120 + r * 480

/-- `BehaviorModel.predict_delay(hour)`.  `hourArg` is the Python argument
(`none` for the default `None`); `nowHour` is `datetime.now().hour`.  The
source computes `hour = hour or datetime.now().hour`, so the falsy values
`None` *and* `0` are both replaced by the wall-clock hour.  When samples
exist for the selected hour, returns `max(1, median * uniform(0.5, 1.5))`
with the median taken as `sorted(delays)[len(delays) // 2]`; otherwise a
draw from the static default bucket.  The single unit draw `r ∈ [0,1]` is
mapped affinely onto whichever uniform range the taken branch draws from. -/
def predict_delay (m : BehaviorModel) (hourArg : Option ℕ) (nowHour : ℕ)
    (r : ℚ) : ℚ :=
  let hour :=
    match hourArg with
    | none => nowHour
    | some h => if h = 0 then nowHour else h
  match m.delay_patterns.lookup hour with
  | some delays =>
    if delays = [] then defaultDelay hour r
    else
      let median := (sortQ delays).getD (delays.length / 2) 0
      max 1 (median * (1 / 2 + r))
  | none => defaultDelay hour r

/-! ## Activity-window schedule (`src/modes/sleepy.py`, class `SleepyMode`) -/

/-- A wall-clock time of day, mirroring `datetime.time` restricted to the
fields the schedule uses; comparison is lexicographic, as in Python. -/
structure TimeOfDay where
  hour : ℕ
  minute : ℕ
  deriving DecidableEq, Repr

/-- Python `<=` on `time` objects (lexicographic). -/
def timeLe (a b : TimeOfDay) : Bool :=
  a.hour < b.hour || (a.hour = b.hour && a.minute ≤ b.minute)

/-- Python `<` on `time` objects (lexicographic). -/
def timeLt (a b : TimeOfDay) : Bool :=
  a.hour < b.hour || (a.hour = b.hour && a.minute < b.minute)

/-- `SleepyMode._time_in_range(current, start, end)`: `start <= current <
end` when the range does not wrap, `current >= start or current < end`
when it crosses midnight. -/
def timeInRange (current startT endT : TimeOfDay) : Bool :=
  if timeLe startT endT then timeLe startT current && timeLt current endT
  else timeLe startT current || timeLt current endT

/-- `SleepSchedule` with its default boundary times. -/
structure SleepSchedule where
  bedtime_start : TimeOfDay
  deep_sleep_start : TimeOfDay
  restless_start : TimeOfDay
  wake_start : TimeOfDay
  fully_awake : TimeOfDay
  deriving DecidableEq, Repr

/-- The default `SleepSchedule()`: 23:00, 01:00, 03:00, 06:00, 08:00. -/
def defaultSchedule : SleepSchedule :=
  ⟨⟨23, 0⟩, ⟨1, 0⟩, ⟨3, 0⟩, ⟨6, 0⟩, ⟨8, 0⟩⟩

/-- `ActivityWindow` descriptor. -/
structure ActivityWindow where
  name : String
  requests_per_hour : ℕ × ℕ
  delay_range : ℚ × ℚ
  burst_chance : ℚ
  category_weights : List (String × ℚ)
  deriving DecidableEq, Repr

/-- `ACTIVITY_WINDOWS["pre_sleep"]`. -/
def preSleepWindow : ActivityWindow :=
  ⟨"Pre-Sleep Scrolling", (6, 15), (120, 600), 3 / 10,
    [("Social", 3 / 10), ("Entertainment", 3 / 10), ("Trending", 2 / 10), ("Lifestyle", 2 / 10)]⟩

/-- `ACTIVITY_WINDOWS["winding_down"]`. -/
def windingDownWindow : ActivityWindow :=
  ⟨"Winding Down", (2, 6), (300, 1200), 1 / 10,
    [("Entertainment", 4 / 10), ("Lifestyle", 3 / 10), ("Trending", 3 / 10)]⟩

/-- `ACTIVITY_WINDOWS["light_sleep"]`. -/
def lightSleepWindow : ActivityWindow :=
  ⟨"Light Sleep", (0, 2), (1200, 3600), 5 / 100,
    [("Social", 5 / 10), ("Trending", 3 / 10), ("Entertainment", 2 / 10)]⟩

/-- `ACTIVITY_WINDOWS["deep_sleep"]`. -/
def deepSleepWindow : ActivityWindow :=
  ⟨"Deep Sleep", (0, 1), (1800, 7200), 2 / 100,
    [("Social", 6 / 10), ("Trending", 4 / 10)]⟩

/-- `ACTIVITY_WINDOWS["cant_sleep"]`. -/
def cantSleepWindow : ActivityWindow :=
  ⟨"Can't Sleep", (3, 8), (60, 300), 4 / 10,
    [("Social", 3 / 10), ("Trending", 3 / 10), ("Entertainment", 2 / 10), ("Technology", 2 / 10)]⟩

/-- `ACTIVITY_WINDOWS["waking_up"]`. -/
def wakingUpWindow : ActivityWindow :=
  ⟨"Waking Up", (4, 10), (180, 600), 2 / 10,
    [("Trending", 4 / 10), ("World", 3 / 10), ("Lifestyle", 3 / 10)]⟩

/-- `ACTIVITY_WINDOWS["morning_routine"]`. -/
def morningRoutineWindow : ActivityWindow :=
  ⟨"Morning Routine", (8, 20), (60, 300), 3 / 10,
    [("World", 3 / 10), ("Trending", 2 / 10), ("Technology", 2 / 10), ("Lifestyle", 2 / 10), ("Health", 1 / 10)]⟩

/-- `ACTIVITY_WINDOWS["daytime"]`. -/
def daytimeWindow : ActivityWindow :=
  ⟨"Daytime", (5, 15), (120, 480), 25 / 100,
    [("Technology", 25 / 100), ("World", 2 / 10), ("Trending", 2 / 10), ("Lifestyle", 2 / 10), ("Health", 15 / 100)]⟩

/-- The values of the `ACTIVITY_WINDOWS` table. -/
def activityWindows : List ActivityWindow :=
  [preSleepWindow, windingDownWindow, lightSleepWindow, deepSleepWindow,
    cantSleepWindow, wakingUpWindow, morningRoutineWindow, daytimeWindow]

/-- `SleepyMode.get_current_activity_window(now)`.  The 5% "can't sleep"
random event between 1am and 5am is modelled by the Boolean `cantSleepRoll`
(the outcome of `random.random() < 0.05`); the remaining dispatch is the
source's if/elif chain over `_time_in_range` with the unconditional
`pre_sleep` fallback. -/
def get_current_activity_window (s : SleepSchedule) (cantSleepRoll : Bool)
    (now : TimeOfDay) : ActivityWindow :=
  if 1 ≤ now.hour && now.hour < 5 && cantSleepRoll then cantSleepWindow
  else if timeInRange now s.bedtime_start s.deep_sleep_start then windingDownWindow
  else if timeInRange now s.deep_sleep_start s.restless_start then lightSleepWindow
  else if timeInRange now s.restless_start s.wake_start then deepSleepWindow
  else if timeInRange now s.wake_start s.fully_awake then wakingUpWindow
  else if 8 ≤ now.hour && now.hour < 22 then daytimeWindow
  else preSleepWindow

/-! ## Bandwidth monitor (`src/throttle.py`, class `BandwidthMonitor`) -/

/-- State of `BandwidthMonitor` read by `get_current_bandwidth`: the window
length (seconds) and the `transfer_log` deque of `(timestamp, bytes)`
samples.  `max_kbps`, `max_bytes_per_window` and `total_bytes` are not read
by the bandwidth computation and are omitted. -/
structure BandwidthMonitor where
  window_seconds : ℚ
  transfer_log : List (ℚ × ℕ)
  deriving DecidableEq, Repr

/-- `BandwidthMonitor._cleanup_old_entries(now)`: pops entries from the
front while their timestamp is strictly below `now - window_seconds`. -/
def cleanupOldEntries (log : List (ℚ × ℕ)) (now window : ℚ) : List (ℚ × ℕ) :=
  log.dropWhile (fun e => decide (e.1 < now - window))

/-- `BandwidthMonitor.get_current_bandwidth()` at wall-clock reading `now`:
prunes, returns `0.0` on an empty log, otherwise sums the retained byte
counts and returns `(total / 1024) / elapsed` when `elapsed = now - first
retained timestamp` is positive, else `0.0`.  (The source's
`else self.window_seconds` fallback for `elapsed` is only reachable with an
empty log, which has already returned `0.0`.)  The source also stores the
pruned log back into `self.transfer_log`; that mutation only discards
entries every later call would prune again, so the read is modelled as
pure. -/
def get_current_bandwidth (m : BandwidthMonitor) (now : ℚ) : ℚ :=
  let log := cleanupOldEntries m.transfer_log now m.window_seconds
  match log with
  | [] => 0
  | (t0, _) :: _ =>
    let total : ℚ := (log.map (fun e => (e.2 : ℚ))).sum
    let elapsed := now - t0
    if 0 < elapsed then (total / 1024) / elapsed else 0

/-! ## Helper lemmas -/

/-- A chain restricted to a prefix of the list is still a chain. -/
theorem chain_take {α : Type} {R : α → α → Prop} :
    ∀ {a : α} {l : List α} (k : ℕ), List.Chain R a l → List.Chain R a (l.take k) := by
  intro a l
  induction l generalizing a with
  | nil => intro k _; simp [List.Chain.nil]
  | cons b t ih =>
    intro k h
    rw [List.chain_cons] at h
    cases k with
    | zero => simp [List.Chain.nil]
    | succ k => exact List.Chain.cons h.1 (ih k h.2)

/-- Single-step bookkeeping for `TokenBucket.acquire`: the configuration
fields are untouched, `last_update` becomes the clock reading, the token
count stays within `[0, capacity]`, and the granted amount plus the
remaining tokens is bounded by the old tokens plus the refill earned over
the elapsed time. -/
theorem acquire_step (b : TokenBucket) (n t : ℚ)
    (hr : 0 ≤ b.rate) (h0 : 0 ≤ b.tokens) (hcap : b.tokens ≤ b.capacity)
    (hle : b.last_update ≤ t) (hn : 0 ≤ n) :
    (b.acquire n t).1.rate = b.rate ∧
    (b.acquire n t).1.capacity = b.capacity ∧
    (b.acquire n t).1.last_update = t ∧
    0 ≤ (b.acquire n t).1.tokens ∧
    (b.acquire n t).1.tokens ≤ b.capacity ∧
    0 ≤ (b.acquire n t).2.2 ∧
    (b.acquire n t).2.2 + (b.acquire n t).1.tokens ≤
      b.tokens + b.rate * (t - b.last_update) := by
  have hcap0 : 0 ≤ b.capacity := le_trans h0 hcap
  have hfill : 0 ≤ (t - b.last_update) * b.rate :=
    mul_nonneg (by linarith) hr
  have hminnn : 0 ≤ min b.capacity (b.tokens + (t - b.last_update) * b.rate) :=
    le_min hcap0 (by linarith)
  have hmincap : min b.capacity (b.tokens + (t - b.last_update) * b.rate) ≤ b.capacity :=
    min_le_left _ _
  have hminbound : min b.capacity (b.tokens + (t - b.last_update) * b.rate) ≤
      b.tokens + b.rate * (t - b.last_update) := by
    have h := min_le_right b.capacity (b.tokens + (t - b.last_update) * b.rate)
    have hco : (t - b.last_update) * b.rate = b.rate * (t - b.last_update) := by ring
    linarith [hco ▸ h]
  by_cases hsucc : n ≤ min b.capacity (b.tokens + (t - b.last_update) * b.rate)
  · have hacq : b.acquire n t =
        ({ b with
            tokens := min b.capacity (b.tokens + (t - b.last_update) * b.rate) - n,
            last_update := t }, 0, n) := by
      simp only [TokenBucket.acquire, if_pos hsucc]
    rw [hacq]
    refine ⟨rfl, rfl, rfl, ?_, ?_, hn, ?_⟩
    · show 0 ≤ min b.capacity (b.tokens + (t - b.last_update) * b.rate) - n
      linarith
    · show min b.capacity (b.tokens + (t - b.last_update) * b.rate) - n ≤ b.capacity
      linarith
    · show n + (min b.capacity (b.tokens + (t - b.last_update) * b.rate) - n) ≤
        b.tokens + b.rate * (t - b.last_update)
      linarith
  · have hacq : b.acquire n t =
        ({ b with
            tokens := min b.capacity (b.tokens + (t - b.last_update) * b.rate),
            last_update := t },
          (n - min b.capacity (b.tokens + (t - b.last_update) * b.rate)) / b.rate, 0) := by
      simp only [TokenBucket.acquire, if_neg hsucc]
    rw [hacq]
    refine ⟨rfl, rfl, rfl, hminnn, hmincap, le_refl _, ?_⟩
    show 0 + min b.capacity (b.tokens + (t - b.last_update) * b.rate) ≤
      b.tokens + b.rate * (t - b.last_update)
    linarith

/-- Bookkeeping invariant for a whole sequence of `acquire` calls with
non-decreasing clock readings and non-negative requested amounts: the
configuration is untouched, the token count stays within `[0, capacity]`,
`last_update` only advances, the total granted amount is non-negative, and
the granted total plus the remaining tokens never exceeds the initial
tokens plus the refill earned over the spanned interval. -/
theorem runAcquires_spec (calls : List (ℚ × ℚ)) :
    ∀ b : TokenBucket, 0 ≤ b.rate → 0 ≤ b.tokens → b.tokens ≤ b.capacity →
    List.Chain (fun x y : ℚ => x ≤ y) b.last_update (calls.map Prod.snd) →
    (∀ c ∈ calls, 0 ≤ c.1) →
    (runAcquires b calls).1.rate = b.rate ∧
    (runAcquires b calls).1.capacity = b.capacity ∧
    0 ≤ (runAcquires b calls).1.tokens ∧
    (runAcquires b calls).1.tokens ≤ b.capacity ∧
    b.last_update ≤ (runAcquires b calls).1.last_update ∧
    0 ≤ (runAcquires b calls).2 ∧
    (runAcquires b calls).2 + (runAcquires b calls).1.tokens ≤
      b.tokens + b.rate * ((runAcquires b calls).1.last_update - b.last_update) := by
  induction calls with
  | nil =>
    intro b _ h0 hcap _ _
    refine ⟨rfl, rfl, h0, hcap, le_refl _, le_refl _, ?_⟩
    show (0 : ℚ) + b.tokens ≤ b.tokens + b.rate * (b.last_update - b.last_update)
    have h : b.rate * (b.last_update - b.last_update) = 0 := by ring
    linarith
  | cons c rest ih =>
    intro b hr h0 hcap hchain hmem
    rw [List.map_cons, List.chain_cons] at hchain
    obtain ⟨hle, hchain2⟩ := hchain
    have hn : 0 ≤ c.1 := hmem c (List.mem_cons_self c rest)
    obtain ⟨srate, scap, slast, stok0, stokc, sg0, sbound⟩ :=
      acquire_step b c.1 c.2 hr h0 hcap hle hn
    have hchain3 : List.Chain (fun x y : ℚ => x ≤ y)
        (b.acquire c.1 c.2).1.last_update (rest.map Prod.snd) := by
      rw [slast]; exact hchain2
    obtain ⟨irate, icap, itok0, itokc, ilast, ig0, ibound⟩ :=
      ih (b.acquire c.1 c.2).1 (srate ▸ hr) stok0 (scap ▸ stokc) hchain3
        (fun x hx => hmem x (List.mem_cons_of_mem c hx))
    simp only [runAcquires]
    rw [srate] at irate
    rw [scap] at icap
    rw [scap] at itokc
    rw [srate, slast] at ibound
    rw [slast] at ilast
    refine ⟨irate, icap, itok0, itokc, le_trans hle ilast, by linarith, ?_⟩
    have hring : b.rate * ((runAcquires (b.acquire c.1 c.2).1 rest).1.last_update - b.last_update) =
        b.rate * (c.2 - b.last_update) +
        b.rate * ((runAcquires (b.acquire c.1 c.2).1 rest).1.last_update - c.2) := by
      ring
    linarith

/-! ## Claim theorems -/

/-- Claim C1 (confirmed): starting from a freshly constructed
`TokenBucket(rate, capacity)` with non-negative rate and capacity, for
every sequence of `acquire(n)` calls with non-negative amounts and
non-decreasing clock readings, the total amount actually granted (by calls
that return wait `0` and decrement) is at most
`capacity + rate * Δt`, where `Δt` is the span from construction to the
last call (`last_update` of the final state), and after every call — i.e.
after every prefix of length `k` of the sequence — the `tokens` field
satisfies `0 ≤ tokens ≤ capacity`. -/
theorem c1_token_bucket_conservation (rate capacity t0 : ℚ)
    (calls : List (ℚ × ℚ)) (k : ℕ)
    (hr : 0 ≤ rate) (hc : 0 ≤ capacity)
    (hn : ∀ c ∈ calls, 0 ≤ c.1)
    (ht : List.Chain (fun x y : ℚ => x ≤ y) t0 (calls.map Prod.snd)) :
    (runAcquires (freshTokenBucket rate capacity t0) calls).2 ≤
      capacity + rate *
        ((runAcquires (freshTokenBucket rate capacity t0) calls).1.last_update - t0) ∧
    0 ≤ (runAcquires (freshTokenBucket rate capacity t0) (calls.take k)).1.tokens ∧
    (runAcquires (freshTokenBucket rate capacity t0) (calls.take k)).1.tokens ≤ capacity := by
  have hfull := runAcquires_spec calls (freshTokenBucket rate capacity t0)
    hr hc (le_refl capacity) ht hn
  have htchain : List.Chain (fun x y : ℚ => x ≤ y) t0 ((calls.take k).map Prod.snd) := by
    rw [List.map_take]
    exact chain_take k ht
  have htake := runAcquires_spec (calls.take k) (freshTokenBucket rate capacity t0)
    hr hc (le_refl capacity) htchain
    (fun c hc2 => hn c (List.take_subset k calls hc2))
  simp only [freshTokenBucket] at hfull htake ⊢
  refine ⟨?_, htake.2.2.1, htake.2.2.2.1⟩
  have h1 := hfull.2.2.1
  have h2 := hfull.2.2.2.2.2.2
  linarith

/-- Witness for C1: `TokenBucket(rate=1, capacity=2)` constructed at `t0 =
0` with calls `acquire(1)` at `t = 0` and `t = 1` grants at most `capacity
+ rate * Δt`. -/
theorem c1_token_bucket_conservation_witness :
    (runAcquires (freshTokenBucket 1 2 0) [(1, 0), (1, 1)]).2 ≤
      2 + 1 * ((runAcquires (freshTokenBucket 1 2 0) [(1, 0), (1, 1)]).1.last_update - 0) :=
  (c1_token_bucket_conservation 1 2 0 [(1, 0), (1, 1)] 2 (by norm_num) (by norm_num)
    (by decide) (by norm_num [List.chain_cons])).1

/-- Claim C2 (confirmed): for every `TokenBucket` state and every `n ≥ 1`,
`acquire(n)` at clock reading `now` first refills to `refilled =
min(capacity, tokens + elapsed * rate)` (persisting the refill and setting
`last_update = now`); if `refilled ≥ n` it additionally decrements by `n`
and returns wait `0`, otherwise it returns wait `(n - refilled) / rate`
with no mutation beyond the refill itself (in particular no decrement). -/
theorem c2_acquire_contract (b : TokenBucket) (n now : ℚ) (_hn : 1 ≤ n) :
    (n ≤ min b.capacity (b.tokens + (now - b.last_update) * b.rate) →
      b.acquire n now =
        ({ b with
            tokens := min b.capacity (b.tokens + (now - b.last_update) * b.rate) - n,
            last_update := now }, 0, n)) ∧
    (min b.capacity (b.tokens + (now - b.last_update) * b.rate) < n →
      b.acquire n now =
        ({ b with
            tokens := min b.capacity (b.tokens + (now - b.last_update) * b.rate),
            last_update := now },
          (n - min b.capacity (b.tokens + (now - b.last_update) * b.rate)) / b.rate, 0)) := by
  constructor
  · intro h
    simp only [TokenBucket.acquire, if_pos h]
  · intro h
    simp only [TokenBucket.acquire, if_neg (not_le.mpr h)]

/-- Witness for C2: a full `TokenBucket(rate=1, capacity=10)` grants
`acquire(1)` immediately, leaving `9` tokens. -/
theorem c2_acquire_contract_witness :
    TokenBucket.acquire ⟨1, 10, 10, 0⟩ 1 0 = (⟨1, 10, 9, 0⟩, 0, 1) := by
  have h := (c2_acquire_contract ⟨1, 10, 10, 0⟩ 1 0 le_rfl).1 (by norm_num)
  rw [h]
  norm_num [min_def]

/-- Characterization of the retry loop against an always-failing transport:
starting at attempt index `a` with `r + 1` iterations left, it returns
`none`, sleeps the `r` jittered backoff delays of attempts `a, …, a+r-1`,
and invokes the transport `r + 1` times. -/
theorem fetchGo_always_fail {R : Type} (cfg : ClientConfig) (j : ℕ → ℚ) :
    ∀ (r a : ℕ),
    fetchGo cfg (fun _ => (none : Option R)) j a (r + 1) =
      (none, (List.range r).map (fun i => backoffDelay cfg (a + i) * j (a + i)), r + 1) := by
  intro r
  induction r with
  | zero => intro a; simp [fetchGo]
  | succ r ih =>
    intro a
    have hlist : (List.range (r + 1)).map (fun i => backoffDelay cfg (a + i) * j (a + i)) =
        backoffDelay cfg a * j a ::
          (List.range r).map (fun i => backoffDelay cfg (a + 1 + i) * j (a + 1 + i)) := by
      rw [List.range_succ_eq_map, List.map_cons, List.map_map]
      refine congrArg₂ List.cons (by rw [Nat.add_zero]) (List.map_congr_left ?_)
      intro i _
      have h : a + (i + 1) = a + 1 + i := by omega
      simp only [Function.comp_apply, Nat.succ_eq_add_one, h]
    have hstep : fetchGo cfg (fun _ => (none : Option R)) j a (r + 1 + 1) =
        ((fetchGo cfg (fun _ => (none : Option R)) j (a + 1) (r + 1)).1,
          backoffDelay cfg a * j a ::
            (fetchGo cfg (fun _ => (none : Option R)) j (a + 1) (r + 1)).2.1,
          (fetchGo cfg (fun _ => (none : Option R)) j (a + 1) (r + 1)).2.2 + 1) := rfl
    rw [hstep, ih (a + 1), hlist]

/-- The unjittered backoff sequence is monotone when the base is
non-negative. -/
theorem backoffDelay_mono (cfg : ClientConfig) (hb : 0 ≤ cfg.retry_backoff_base)
    (i : ℕ) : backoffDelay cfg i ≤ backoffDelay cfg (i + 1) := by
  unfold backoffDelay
  refine min_le_min ?_ (le_refl _)
  have h2 : (2 : ℚ) ^ i ≤ 2 ^ (i + 1) := by
    have := pow_le_pow_right₀ (by norm_num : (1 : ℚ) ≤ 2) (Nat.le_succ i)
    exact this
  exact mul_le_mul_of_nonneg_left h2 hb

/-- Counterexample to claim C3: with `max_retries = 2`,
`retry_backoff_base = 1`, `retry_backoff_max = 30` and jitter draws `1.5`
then `0.5` — both inside the `uniform(0.5, 1.5)` support — the delays
actually slept by the retry loop against an always-failing transport are
`[1.5, 1.0]`, which is *not* non-decreasing.  The claim's assertion that
the slept delays are non-decreasing is therefore false. -/
theorem c3_retry_backoff_counterexample :
    (1 / 2 ≤ jEx 0 ∧ jEx 0 ≤ 3 / 2) ∧ (1 / 2 ≤ jEx 1 ∧ jEx 1 ≤ 3 / 2) ∧
    (fetchWithRetries cfgEx (fun _ => (none : Option Unit)) jEx).2.1 = [3 / 2, 1] ∧
    ¬ List.Chain' (fun x y : ℚ => x ≤ y)
      (fetchWithRetries cfgEx (fun _ => (none : Option Unit)) jEx).2.1 := by
  refine ⟨by norm_num [jEx], by norm_num [jEx], ?_, ?_⟩
  · rw [show (fetchWithRetries cfgEx (fun _ => (none : Option Unit)) jEx).2.1 =
        [3 / 2, 1] from by norm_num [fetchWithRetries, fetchGo, cfgEx, jEx, backoffDelay]]
  · rw [show (fetchWithRetries cfgEx (fun _ => (none : Option Unit)) jEx).2.1 =
        [3 / 2, 1] from by norm_num [fetchWithRetries, fetchGo, cfgEx, jEx, backoffDelay]]
    simp [List.chain'_cons]
    norm_num

/-- Claim C3 as amended (the counterexample above forces dropping the
monotonicity of the *slept* delays): if the transport raises on every
attempt, `fetch` invokes the transport exactly `max_retries + 1` times and
returns the failure result `none`; the delay slept after attempt `i` (for
`i < max_retries`) is `min(base * 2 ** i, max) * jitter_i` with
`jitter_i ∈ [0.5, 1.5]`; the *unjittered* backoff values
`min(base * 2 ** i, max)` are non-decreasing up to the cap, and each slept
delay lies within `[0.5, 1.5]` times its unjittered value — but the slept
delays themselves need not be non-decreasing. -/
theorem c3_retry_backoff_amended (R : Type) (cfg : ClientConfig) (j : ℕ → ℚ)
    (hb : 0 ≤ cfg.retry_backoff_base) (hm : 0 ≤ cfg.retry_backoff_max)
    (hj : ∀ i, 1 / 2 ≤ j i ∧ j i ≤ 3 / 2) :
    (fetchWithRetries cfg (fun _ => (none : Option R)) j).1 = none ∧
    (fetchWithRetries cfg (fun _ => (none : Option R)) j).2.2 = cfg.max_retries + 1 ∧
    (fetchWithRetries cfg (fun _ => (none : Option R)) j).2.1 =
      (List.range cfg.max_retries).map (fun i => backoffDelay cfg i * j i) ∧
    (∀ i, backoffDelay cfg i ≤ backoffDelay cfg (i + 1)) ∧
    (∀ i, 1 / 2 * backoffDelay cfg i ≤ backoffDelay cfg i * j i ∧
      backoffDelay cfg i * j i ≤ 3 / 2 * backoffDelay cfg i) := by
  have hrun := fetchGo_always_fail (R := R) cfg j cfg.max_retries 0
  have hd0 : ∀ i : ℕ, 0 ≤ backoffDelay cfg i := by
    intro i
    exact le_min (mul_nonneg hb (by positivity)) hm
  refine ⟨?_, ?_, ?_, backoffDelay_mono cfg hb, ?_⟩
  · rw [fetchWithRetries, hrun]
  · rw [fetchWithRetries, hrun]
  · rw [fetchWithRetries, hrun]
    simp only [Nat.zero_add]
  · intro i
    constructor
    · have := mul_le_mul_of_nonneg_left (hj i).1 (hd0 i)
      linarith [this]
    · have := mul_le_mul_of_nonneg_left (hj i).2 (hd0 i)
      linarith [this]

/-- Witness for the amended C3: with the defaults `max_retries = 3` of the
source configuration (base `1`, cap `30`) and unit jitter, the transport is
invoked exactly `4` times. -/
theorem c3_retry_backoff_amended_witness :
    (fetchWithRetries ⟨3, 1, 30⟩ (fun _ => (none : Option Unit)) (fun _ => 1)).2.2 = 3 + 1 :=
  (c3_retry_backoff_amended Unit ⟨3, 1, 30⟩ (fun _ => 1) (by norm_num) (by norm_num)
    (fun i => ⟨by norm_num, by norm_num⟩)).2.1

/-- Filtering an association list cannot make an absent key present. -/
theorem lookup_filter_none {β : Type} (a : String) (p : String × β → Bool) :
    ∀ l : List (String × β), l.lookup a = none → (l.filter p).lookup a = none := by
  intro l
  induction l with
  | nil => intro _; rfl
  | cons kv t ih =>
    obtain ⟨k, v⟩ := kv
    intro h
    by_cases hak : (a == k) = true
    · exfalso
      simp [List.lookup, hak] at h
    · have hlt : List.lookup a t = none := by
        simpa [List.lookup, hak] using h
      simp only [List.filter_cons]
      by_cases hp : p (k, v) = true
      · simp [hp, List.lookup, hak, ih hlt]
      · simp [hp, ih hlt]

/-- Claim C4 (confirmed): for every deduplicator state not containing the
fingerprint of `(url, method)`, a first `should_skip` call at `t1` records
the fingerprint and returns `false`; a second call at `t2` with `t2 - t1`
inside the window returns `true` and leaves the stored timestamp at `t1`;
a third call at `t3` with at least the window elapsed since the first
returns `false` again. -/
theorem c4_deduplicator_idempotence (d : RequestDeduplicator)
    (url method : String) (t1 t2 t3 : ℚ)
    (h0 : d.recent_requests.lookup (hashRequest url method) = none)
    (_h12 : t1 ≤ t2) (_h23 : t2 ≤ t3)
    (hw2 : t2 - t1 < d.window) (hw3 : d.window ≤ t3 - t1) :
    (d.should_skip url method t1).1 = false ∧
    ((d.should_skip url method t1).2.should_skip url method t2).1 = true ∧
    ((d.should_skip url method t1).2.should_skip url method t2).2.recent_requests.lookup
      (hashRequest url method) = some t1 ∧
    (((d.should_skip url method t1).2.should_skip url method t2).2.should_skip
      url method t3).1 = false := by
  obtain ⟨w, L⟩ := d
  simp only at h0 hw2 hw3
  have habs : ∀ (L0 : List (String × ℚ)) (now : ℚ),
      List.lookup (hashRequest url method)
        (List.filter (fun kv => decide (now - kv.2 < w)) L0) = none →
      RequestDeduplicator.should_skip ⟨w, L0⟩ url method now =
        (false, ⟨w, (hashRequest url method, now) ::
          List.filter (fun kv => decide (now - kv.2 < w)) L0⟩) := by
    intro L0 now hlk
    simp only [RequestDeduplicator.should_skip]
    rw [hlk]
  have hpres : ∀ (L0 : List (String × ℚ)) (now v : ℚ),
      List.lookup (hashRequest url method)
        (List.filter (fun kv => decide (now - kv.2 < w)) L0) = some v →
      RequestDeduplicator.should_skip ⟨w, L0⟩ url method now =
        (true, ⟨w, List.filter (fun kv => decide (now - kv.2 < w)) L0⟩) := by
    intro L0 now v hlk
    simp only [RequestDeduplicator.should_skip]
    rw [hlk]
  have hlk1 : List.lookup (hashRequest url method)
      (List.filter (fun kv => decide (t1 - kv.2 < w)) L) = none :=
    lookup_filter_none _ _ _ h0
  have e1 := habs L t1 hlk1
  have hf2 : List.filter (fun kv => decide (t2 - kv.2 < w))
      ((hashRequest url method, t1) :: List.filter (fun kv => decide (t1 - kv.2 < w)) L) =
      (hashRequest url method, t1) ::
        List.filter (fun kv => decide (t2 - kv.2 < w))
          (List.filter (fun kv => decide (t1 - kv.2 < w)) L) := by
    simp [List.filter_cons, hw2]
  have hlk2 : List.lookup (hashRequest url method)
      (List.filter (fun kv => decide (t2 - kv.2 < w))
        ((hashRequest url method, t1) ::
          List.filter (fun kv => decide (t1 - kv.2 < w)) L)) = some t1 := by
    rw [hf2]
    simp [List.lookup]
  have e2 := hpres ((hashRequest url method, t1) ::
    List.filter (fun kv => decide (t1 - kv.2 < w)) L) t2 t1 hlk2
  have hlk3 : List.lookup (hashRequest url method)
      (List.filter (fun kv => decide (t3 - kv.2 < w))
        (List.filter (fun kv => decide (t2 - kv.2 < w))
          ((hashRequest url method, t1) ::
            List.filter (fun kv => decide (t1 - kv.2 < w)) L))) = none := by
    rw [hf2, List.filter_cons]
    have hd : decide (t3 - t1 < w) = false := by
      simp [not_lt.mpr hw3]
    rw [hd]
    simp only [Bool.false_eq_true, if_false]
    exact lookup_filter_none _ _ _ (lookup_filter_none _ _ _ (lookup_filter_none _ _ _ h0))
  have e3 := habs (List.filter (fun kv => decide (t2 - kv.2 < w))
    ((hashRequest url method, t1) ::
      List.filter (fun kv => decide (t1 - kv.2 < w)) L)) t3 hlk3
  refine ⟨?_, ?_, ?_, ?_⟩
  · rw [e1]
  · rw [e1]
    show (RequestDeduplicator.should_skip ⟨w, (hashRequest url method, t1) ::
      List.filter (fun kv => decide (t1 - kv.2 < w)) L⟩ url method t2).1 = true
    rw [e2]
  · rw [e1]
    show List.lookup (hashRequest url method)
      (RequestDeduplicator.should_skip ⟨w, (hashRequest url method, t1) ::
        List.filter (fun kv => decide (t1 - kv.2 < w)) L⟩ url method t2).2.recent_requests =
      some t1
    rw [e2]
    exact hlk2
  · rw [e1]
    show (RequestDeduplicator.should_skip ((RequestDeduplicator.should_skip ⟨w,
      (hashRequest url method, t1) ::
        List.filter (fun kv => decide (t1 - kv.2 < w)) L⟩ url method t2).2)
      url method t3).1 = false
    rw [e2]
    show (RequestDeduplicator.should_skip ⟨w,
      List.filter (fun kv => decide (t2 - kv.2 < w))
        ((hashRequest url method, t1) ::
          List.filter (fun kv => decide (t1 - kv.2 < w)) L)⟩ url method t3).1 = false
    rw [e3]

/-- Witness for C4: an empty deduplicator with window `5` and calls at
`t = 0, 1, 5` on the same `(url, method)`. -/
theorem c4_deduplicator_idempotence_witness :
    (RequestDeduplicator.should_skip ⟨5, []⟩ "u" "GET" 0).1 = false ∧
    ((RequestDeduplicator.should_skip ⟨5, []⟩ "u" "GET" 0).2.should_skip "u" "GET" 1).1 = true ∧
    ((RequestDeduplicator.should_skip ⟨5, []⟩ "u" "GET" 0).2.should_skip
      "u" "GET" 1).2.recent_requests.lookup (hashRequest "u" "GET") = some 0 ∧
    (((RequestDeduplicator.should_skip ⟨5, []⟩ "u" "GET" 0).2.should_skip
      "u" "GET" 1).2.should_skip "u" "GET" 5).1 = false :=
  c4_deduplicator_idempotence ⟨5, []⟩ "u" "GET" 0 1 5 rfl (by norm_num) (by norm_num)
    (by norm_num) (by norm_num)

/-- Insertion keeps one more element than the input. -/
theorem insertByTime_length (x : Observation) :
    ∀ l : List Observation, (insertByTime x l).length = l.length + 1 := by
  intro l
  induction l with
  | nil => rfl
  | cons y ys ih =>
    simp only [insertByTime]
    split
    · simp
    · simp [ih]

/-- Sorting preserves the length of the history. -/
theorem sortByTime_length : ∀ l : List Observation,
    (sortByTime l).length = l.length := by
  intro l
  induction l with
  | nil => rfl
  | cons x xs ih => simp [sortByTime, insertByTime_length, ih]

/-- `rowIncr` keeps every entry of a row strictly positive. -/
theorem rowIncr_pos (b : String) : ∀ (row : List (String × ℚ)),
    (∀ kv ∈ row, 0 < kv.2) → ∀ kv ∈ rowIncr row b, 0 < kv.2 := by
  intro row
  induction row with
  | nil =>
    intro _ kv hkv
    simp only [rowIncr, List.mem_singleton] at hkv
    rw [hkv]
    norm_num
  | cons p rest ih =>
    intro hrow kv hkv
    obtain ⟨k, v⟩ := p
    simp only [rowIncr] at hkv
    split at hkv
    · rcases List.mem_cons.mp hkv with h | h
      · rw [h]
        have := hrow (k, v) (List.mem_cons_self _ _)
        simp only at this
        simpa using by linarith
      · exact hrow kv (List.mem_cons_of_mem _ h)
    · rcases List.mem_cons.mp hkv with h | h
      · rw [h]
        exact hrow (k, v) (List.mem_cons_self _ _)
      · exact ih (fun q hq => hrow q (List.mem_cons_of_mem _ hq)) kv h

/-- `tableIncr` keeps every entry of every row strictly positive. -/
theorem tableIncr_pos (a b : String) : ∀ (t : TransitionTable),
    (∀ row ∈ t, ∀ kv ∈ row.2, 0 < kv.2) →
    ∀ row ∈ tableIncr t a b, ∀ kv ∈ row.2, 0 < kv.2 := by
  intro t
  induction t with
  | nil =>
    intro _ row hrow
    simp only [tableIncr, List.mem_singleton] at hrow
    rw [hrow]
    exact rowIncr_pos b [] (by simp)
  | cons p rest ih =>
    intro ht row hrow
    obtain ⟨k, r⟩ := p
    simp only [tableIncr] at hrow
    split at hrow
    · rcases List.mem_cons.mp hrow with h | h
      · rw [h]
        exact rowIncr_pos b r (ht (k, r) (List.mem_cons_self _ _))
      · exact ht row (List.mem_cons_of_mem _ h)
    · rcases List.mem_cons.mp hrow with h | h
      · rw [h]
        exact ht (k, r) (List.mem_cons_self _ _)
      · exact ih (fun q hq => ht q (List.mem_cons_of_mem _ hq)) row h

/-- Ingesting history pairs keeps every transition entry strictly
positive. -/
theorem trainPairs_pos : ∀ (obs : List Observation) (prev : Observation)
    (m : BehaviorModel),
    (∀ row ∈ m.transitions, ∀ kv ∈ row.2, 0 < kv.2) →
    ∀ row ∈ (trainPairs m prev obs).transitions, ∀ kv ∈ row.2, 0 < kv.2 := by
  intro obs
  induction obs with
  | nil =>
    intro prev m hm
    simpa [trainPairs] using hm
  | cons o rest ih =>
    intro prev m hm
    simp only [trainPairs]
    apply ih
    split <;> split <;>
      first
        | exact hm
        | exact tableIncr_pos _ _ _ hm

/-- A non-empty all-positive row sums to exactly `1` after `normalizeRow`. -/
theorem normalizeRow_sum (row : List (String × ℚ)) (hne : row ≠ [])
    (hpos : ∀ kv ∈ row, 0 < kv.2) :
    ((normalizeRow row).map Prod.snd).sum = 1 := by
  have htot : 0 < (row.map Prod.snd).sum := by
    apply List.sum_pos
    · intro x hx
      obtain ⟨kv, hkv, hx2⟩ := List.mem_map.mp hx
      rw [← hx2]
      exact hpos kv hkv
    · simpa using hne
  unfold normalizeRow
  rw [if_pos htot, List.map_map]
  have hcomp : (Prod.snd ∘ fun kv : String × ℚ =>
      (kv.1, kv.2 / (row.map Prod.snd).sum)) =
      fun kv : String × ℚ => kv.2 * ((row.map Prod.snd).sum)⁻¹ := by
    funext kv
    simp [div_eq_mul_inv]
  rw [hcomp, List.sum_map_mul_right]
  exact mul_inv_cancel₀ (ne_of_gt htot)

/-- `normalizeRow` keeps entries strictly positive. -/
theorem normalizeRow_pos (row : List (String × ℚ))
    (hpos : ∀ kv ∈ row, 0 < kv.2) :
    ∀ kv ∈ normalizeRow row, 0 < kv.2 := by
  intro kv hkv
  simp only [normalizeRow] at hkv
  split at hkv
  · obtain ⟨q, hq, hq2⟩ := List.mem_map.mp hkv
    rw [← hq2]
    exact div_pos (hpos q hq) (by assumption)
  · exact hpos kv hkv

/-- Claim C5 (confirmed): after `train_from_history` on at least two
observations, starting from any model whose transition entries are all
strictly positive (true of the empty model, and — by the second conjunct —
re-established by every `train` call, covering repeated invocations on a
model that already holds normalized rows), every non-empty transition row
sums to exactly `1`.  The embedding computes in exact rationals, so the
claim's `± 1e-9` tolerance is met with equality. -/
theorem c5_behavior_model_normalization (m : BehaviorModel)
    (history : List Observation)
    (hpos : ∀ row ∈ m.transitions, ∀ kv ∈ row.2, 0 < kv.2)
    (hlen : 2 ≤ history.length)
    (row : String × List (String × ℚ))
    (hrow : row ∈ (train_from_history m history).transitions)
    (hne : row.2 ≠ []) :
    (row.2.map Prod.snd).sum = 1 ∧ ∀ kv ∈ row.2, 0 < kv.2 := by
  unfold train_from_history at hrow
  rw [if_neg (by omega : ¬ history.length < 2)] at hrow
  rcases hsort : sortByTime history with _ | ⟨first, rest⟩
  · exfalso
    have hl := sortByTime_length history
    rw [hsort] at hl
    simp at hl
    omega
  · rw [hsort] at hrow
    simp only [normalizeTransitions] at hrow
    obtain ⟨r0, hr0, hr0eq⟩ := List.mem_map.mp hrow
    have hposc : ∀ q ∈ (trainPairs m first rest).transitions, ∀ kv ∈ q.2, 0 < kv.2 :=
      trainPairs_pos rest first m hpos
    have hr0pos : ∀ kv ∈ r0.2, 0 < kv.2 := hposc r0 hr0
    have hne0 : r0.2 ≠ [] := by
      intro hnil
      apply hne
      rw [← hr0eq, hnil]
      rfl
    constructor
    · rw [← hr0eq]
      exact normalizeRow_sum r0.2 hne0 hr0pos
    · rw [← hr0eq]
      exact normalizeRow_pos r0.2 hr0pos

/-- Witness for C5: training the empty model on two observations
`(A, t=0), (B, t=10)` produces the single row `A ↦ [B ↦ 1]`, which sums to
`1`. -/
theorem c5_behavior_model_normalization_witness :
    ((([("B", (1 : ℚ))]).map Prod.snd).sum = 1) ∧
      (∀ kv ∈ [("B", (1 : ℚ))], 0 < kv.2) :=
  c5_behavior_model_normalization ⟨[], []⟩ [⟨"A", 0⟩, ⟨"B", 10⟩] (by simp)
    (by simp) ("A", [("B", 1)])
    (by norm_num [train_from_history, sortByTime, insertByTime, trainPairs,
      tableIncr, rowIncr, normalizeTransitions, normalizeRow, appendDelay, hourOf,
      show ¬("A" = "") from by decide, List.mem_singleton])
    (by simp)

/-- The activity-window dispatch always lands in the `ACTIVITY_WINDOWS`
table, whatever the schedule, the random roll, and the time. -/
theorem get_current_activity_window_mem (s : SleepSchedule) (roll : Bool)
    (now : TimeOfDay) :
    get_current_activity_window s roll now ∈ activityWindows := by
  unfold get_current_activity_window
  repeat' split
  all_goals simp [activityWindows]

/-- Claim C6 (confirmed): for every wall-clock instant — every hour `0–23`
and minute `0–59` — and either outcome of the 5% "can't sleep" roll, the
current-phase lookup on the default schedule returns exactly one activity
window, and it is one of the configured `ACTIVITY_WINDOWS`; the dispatch is
a total function ending in an unconditional `pre_sleep` fallback, so no
input fails or returns nothing, including across the midnight-wrapping
`23:00 → 01:00` boundary handled by `_time_in_range`. -/
theorem c6_schedule_coverage (h m : ℕ) (roll : Bool)
    (_hh : h < 24) (_hm : m < 60) :
    get_current_activity_window defaultSchedule roll ⟨h, m⟩ ∈ activityWindows :=
  get_current_activity_window_mem defaultSchedule roll ⟨h, m⟩

/-- Witness for C6: midnight with no disruption roll resolves to a
configured window. -/
theorem c6_schedule_coverage_witness :
    get_current_activity_window defaultSchedule false ⟨0, 0⟩ ∈ activityWindows :=
  c6_schedule_coverage 0 0 false (by norm_num) (by norm_num)

/-- Counterexample to claim C7, both conjuncts at the monitor state holding
the single sample of `1024` bytes recorded at `t = 0` with a `1`-second
window: (i) a reading taken *at* `t + window = 1` still counts the sample —
the pruning cutoff is strict — and reports `1 KB/s`, where the claim
demands zero rate "at or after `t + window`"; (ii) a reading at `now = t`
has a degenerate (zero) span and returns `0`, where the claim demands
dividing by the window size (which would give `1 KB/s`): the
`else window_seconds` fallback in the source is dead code, reachable only
with an empty log that has already returned `0`. -/
theorem c7_bandwidth_counterexample :
    get_current_bandwidth ⟨1, [(0, 1024)]⟩ 1 = 1 ∧
    get_current_bandwidth ⟨1, [(0, 1024)]⟩ 0 = 0 := by
  constructor <;>
    norm_num [get_current_bandwidth, cleanupOldEntries, List.dropWhile]

/-- Claim C7 as amended (the counterexample above forces replacing "at or
after `t + window`" by "strictly after", and the degenerate-span fallback
by `0`): `get_current_bandwidth` prunes the samples whose timestamps are
strictly older than `now - window`, sums the remaining bytes and divides
the KB total by the elapsed span of retained samples when that span is
positive; it returns `0` when the span is degenerate (zero or negative)
and when no samples remain — in particular a reading strictly later than
every sample's expiry `timestamp + window` attributes zero rate to all of
them. -/
theorem c7_bandwidth_amended (mon : BandwidthMonitor) (now w t nowS : ℚ)
    (b : ℕ) :
    ((∀ e ∈ mon.transfer_log, e.1 + mon.window_seconds < now) →
      get_current_bandwidth mon now = 0) ∧
    (nowS ≤ t → get_current_bandwidth ⟨w, [(t, b)]⟩ nowS = 0) := by
  constructor
  · intro hall
    have hdrop : cleanupOldEntries mon.transfer_log now mon.window_seconds = [] := by
      rw [cleanupOldEntries, List.dropWhile_eq_nil_iff]
      intro e he
      simpa using by linarith [hall e he]
    simp only [get_current_bandwidth, hdrop]
  · intro hts
    by_cases hp : t < nowS - w
    · simp [get_current_bandwidth, cleanupOldEntries, List.dropWhile, hp]
    · simp only [get_current_bandwidth, cleanupOldEntries, List.dropWhile,
        decide_eq_true_eq, hp, decide_False]
      rw [if_neg (by linarith : ¬ (0 : ℚ) < nowS - t)]

/-- Witness for the amended C7: a `2048`-byte sample recorded at `t = 0`
contributes nothing to a reading at `now = 2` with window `1`, and a
single-sample monitor read at a clock not past the sample has zero rate. -/
theorem c7_bandwidth_amended_witness :
    get_current_bandwidth ⟨1, [(0, 2048)]⟩ 2 = 0 ∧
    get_current_bandwidth ⟨1, [(5, 1024)]⟩ 3 = 0 :=
  ⟨(c7_bandwidth_amended ⟨1, [(0, 2048)]⟩ 2 1 5 3 1024).1 (by norm_num),
   (c7_bandwidth_amended ⟨1, [(0, 2048)]⟩ 2 1 5 3 1024).2 (by norm_num)⟩

/-- Claim C8 is contradicted by the source on the failing input `hour = 0`:
`predict_delay` computes `hour = hour or datetime.now().hour`, and Python's
`or` treats the integer `0` as falsy, so an explicit `predict_delay(0)` is
silently redirected to the wall-clock hour.  Here the model holds samples
`[1000]` for hour `0` (median `1000`, so the claim requires a result in
`[max(1, 500), max(1, 1500)] = [500, 1500]`), the wall clock reads hour
`14`, and the call returns `60` — the lower edge of the *work-hours
default bucket* for hour `14` (unit draw `r = 0`) — which is outside the
claimed range.  The claim (and the spec's `predictDelay(hour?)` contract)
describes the evident intent; the code's falsy-zero test is the slip. -/
theorem c8_predict_delay_hour_zero_bug :
    predict_delay ⟨[], [(0, [1000])]⟩ (some 0) 14 0 = 60 ∧
    ¬ ((max 1 ((1 / 2 : ℚ) * 1000) ≤ 60 ∧ (60 : ℚ) ≤ max 1 ((3 / 2) * 1000))) := by
  constructor
  · norm_num [predict_delay, List.lookup, defaultDelay,
      show (14 == 0) = false from rfl]
  · intro hcon
    have h5 : max (1 : ℚ) ((1 / 2) * 1000) = 500 := by
      rw [max_eq_right (by norm_num)]
      norm_num
    rw [h5] at hcon
    linarith [hcon.1]

/-- Claim C10 (confirmed): `wait_and_acquire(n)` retries `acquire` at most
once and discards the second call's returned wait time, so for every
bucket state with positive rate (the source divides by `rate`, so a
zero-rate bucket would not complete the call) and every `n` exceeding the
capacity, `wait_and_acquire(n)` returns normally with zero tokens granted
across both `acquire` calls: the caller proceeds unthrottled. -/
theorem c10_wait_and_acquire_no_deduction (b : TokenBucket) (n t1 t2 : ℚ)
    (_hrate : 0 < b.rate) (hcap : b.capacity < n) :
    (b.wait_and_acquire n t1 t2).2 = 0 := by
  have h1 : ¬ (n ≤ min b.capacity (b.tokens + (t1 - b.last_update) * b.rate)) :=
    not_le.mpr (lt_of_le_of_lt (min_le_left _ _) hcap)
  simp only [TokenBucket.wait_and_acquire, TokenBucket.acquire, if_neg h1]
  split
  · have h2 : ¬ (n ≤ min b.capacity
        (min b.capacity (b.tokens + (t1 - b.last_update) * b.rate) + (t2 - t1) * b.rate)) :=
      not_le.mpr (lt_of_le_of_lt (min_le_left _ _) hcap)
    simp only [if_neg h2]
    norm_num
  · rfl

/-- Witness for C10: `TokenBucket(rate=1, capacity=2)`, `wait_and_acquire(3)`
completes with zero tokens granted. -/
theorem c10_wait_and_acquire_no_deduction_witness :
    (TokenBucket.wait_and_acquire ⟨1, 2, 2, 0⟩ 3 0 1).2 = 0 :=
  c10_wait_and_acquire_no_deduction ⟨1, 2, 2, 0⟩ 3 0 1 (by norm_num) (by norm_num)
